import Mathlib

/-!
Verification of `template-tag-common` (src/index.js) against its
natural-language specification.

JavaScript strings are modelled as `List Char` (all characters relevant to the
claims are in the Basic Multilingual Plane and are not lone surrogates, so one
Lean `Char` corresponds to one UTF-16 code unit).  Mutable JS objects are
modelled by explicit state passing; thrown JS values by `Except`.
-/

/-- Converts a Lean string literal to the `List Char` model of a JS string. -/
def S (s : String) : List Char := s.data

/-- Character class of the source regex `LINE_TERMINATORS = [LF CR U+2028 U+2029]`
(src/index.js line 216, per ES6 sec-line-terminators). -/
def isLineTerm (c : Char) : Bool :=
  c = '\n' || c = '\r' || c = '\u2028' || c = '\u2029'

/-- Character class of the source regex
`WS_RUN = /^[TAB VT FF SP NBSP BOM]*/` (src/index.js line 214,
per ES6 sec-white-space). -/
def isWsChar (c : Char) : Bool :=
  c = '\t' || c = '\u000B' || c = '\u000C' || c = ' ' || c = '\u00A0' || c = '\uFEFF'

/-- `WS_RUN.exec(line)[0]`: the leading run of whitespace of a line. -/
def wsRun (s : List Char) : List Char := s.takeWhile isWsChar

/-- `commonPrefixOf` (src/index.js lines 178-187): the longest prefix of `a`
that is also a prefix of `b`, computed by scanning until the first mismatch. -/
def commonPrefixOf : List Char → List Char → List Char
  | a :: as, b :: bs => if a = b then a :: commonPrefixOf as bs else []
  | _, _ => []

/-- `String.prototype.split(LINE_TERMINATORS)` where the separator regex is
`[LF CR U+2028 U+2029]+` (src/index.js line 196 / 216): a *maximal run* of
consecutive line terminators counts as a single separator, so a CRLF pair —
and equally a blank line's two adjacent line breaks — separate only two
fragments. -/
def splitOnTermRuns : List Char → List (List Char)
  | [] => [[]]
  | c :: rest =>
    let acc := splitOnTermRuns rest
    if isLineTerm c then
      match rest with
      | r :: _ => if isLineTerm r then acc else [] :: acc
      | [] => [] :: acc
    else
      match acc with
      | f :: fs => (c :: f) :: fs
      | [] => [[c]]

/-- A template-strings object: the cooked chunk array with its attached `raw`
chunk array, plus the `Object.isFrozen` status of each of the two arrays. -/
structure TemplateStrings where
  cooked : List (List Char)
  raw : List (List Char)
  cookedFrozen : Bool
  rawFrozen : Bool
deriving DecidableEq, Repr

/-- One step of the running common-prefix fold of
`commonPrefixOfTemplateStrings` (src/index.js lines 200-203): a `null`
accumulator is replaced by the first whitespace run, afterwards the
accumulator is reduced by pairwise longest-common-prefix.  (The source's
`if (!commonPrefix) break` on line 204-206 only short-circuits the inner
loop once the accumulator is empty; since `commonPrefixOf [] r = []`, folding
on without the break computes the same value.) -/
def lcpStep (acc : Option (List Char)) (r : List Char) : Option (List Char) :=
  some (match acc with
        | none => r
        | some p => commonPrefixOf p r)

/-- `commonPrefixOfTemplateStrings` (src/index.js lines 189-210).
The guard `!LINE_TERMINATORS.exec(raw[0])` tests whether `raw[0]` *contains*
a line terminator anywhere (the regex is unanchored); `raw[0]` on an empty
array is `undefined`, whose coercion `"undefined"` contains none.
The loop runs `i` from 0 to `length - 1` where `length` is destructured from
the template-strings object (the cooked array's length), reading `raw[i]`;
an out-of-range read is `undefined`, which splits into a single fragment and
contributes nothing, which `getD i []` reproduces.  The JS function returns
`''` from the guard, or the final accumulator (`null` only if no line was
visited, which the guard precludes; `getD []` maps both falsy results to the
empty string). -/
def commonPrefixOfTemplateStrings (ts : TemplateStrings) : List Char :=
  if (ts.raw.headD []).any isLineTerm then
    (((List.range ts.cooked.length).foldl
        (fun acc i =>
          (((splitOnTermRuns (ts.raw.getD i [])).drop 1).foldl
            (fun a ln => lcpStep a (wsRun ln)) acc))
        none).getD [])
  else []

/-- One chunk's contribution to the common-prefix fold: the leading
whitespace runs of every fragment of the chunk except the first
(src/index.js line 199 starts the inner loop at `lnum = 1` because fragment 0
follows the opening delimiter or a substitution, not a line start). -/
def leadingWsRuns (chunk : List Char) : List (List Char) :=
  ((splitOnTermRuns chunk).drop 1).map wsRun

/-- `chunk.replace(prefixPattern, '$1')` (src/index.js lines 244-245, 258-259)
where `prefixPattern = new RegExp('(' + LINE_TERMINATORS.source + ')' + pfx, 'g')`:
every maximal run of line terminators that is immediately followed by the
whitespace prefix `pfx` keeps the run and drops the prefix.  The second
argument counts characters of a just-matched prefix still to be deleted;
the prefix never contains a line terminator, so the regex engine never
backtracks into a shorter terminator run and no new match can begin inside
a deleted prefix. -/
def stripAux (pfx : List Char) : List Char → Nat → List Char
  | [], _ => []
  | _ :: rest, skip + 1 => stripAux pfx rest skip
  | c :: rest, 0 =>
    if isLineTerm c then
      match rest with
      | r :: _ =>
        if isLineTerm r then c :: stripAux pfx rest 0
        else if pfx.isPrefixOf rest then c :: stripAux pfx rest pfx.length
        else c :: stripAux pfx rest 0
      | [] => [c]
    else c :: stripAux pfx rest 0

/-- Strips the common whitespace prefix after every line-terminator run. -/
def stripAfterBreaks (pfx : List Char) (s : List Char) : List Char :=
  stripAux pfx s 0

/-- Removes a leading line-terminator token from a *reversed* string:
helper for `LINE_TERMINATOR_AT_END = /(?:\r\n?|[\n\r  ])$/`
(src/index.js line 218; class shown figuratively).  In reverse order a
trailing CRLF pair reads LF-then-CR and is removed as one token. -/
def dropTokenRev (s : List Char) : List Char :=
  match s with
  | [] => []
  | c :: rest =>
    if c = '\n' then
      match rest with
      | r :: rest2 => if r = '\r' then rest2 else r :: rest2
      | [] => []
    else if isLineTerm c then rest
    else s

/-- `first.replace(LINE_TERMINATOR_AT_START, '')` (src/index.js lines 217,
260-262): removes exactly one leading line-terminator token, where
`/^(?:\r\n?|[\n  ])/` treats CRLF as a single token. -/
def dropLineTermAtStart (s : List Char) : List Char :=
  match s with
  | [] => []
  | c :: rest =>
    if c = '\r' then
      match rest with
      | r :: rest2 => if r = '\n' then rest2 else r :: rest2
      | [] => []
    else if c = '\n' || c = '\u2028' || c = '\u2029' then rest
    else s

/-- `last.replace(LINE_TERMINATOR_AT_END, '')` (src/index.js lines 218,
263-266): removes exactly one trailing line-terminator token (CRLF counted
as one token). -/
def dropLineTermAtEnd (s : List Char) : List Char :=
  (dropTokenRev s.reverse).reverse

/-- Decides the regex class `[0-9A-Fa-f]`. -/
def isHexDigit (c : Char) : Bool :=
  ('0' ≤ c && c ≤ '9') || ('A' ≤ c && c ≤ 'F') || ('a' ≤ c && c ≤ 'f')

/-- Decides the regex class `[0-7]`. -/
def isOctalDigit (c : Char) : Bool := '0' ≤ c && c ≤ '7'

/-- Numeric value of a hexadecimal digit. -/
def hexVal (c : Char) : Nat :=
  if '0' ≤ c && c ≤ '9' then c.toNat - '0'.toNat
  else if 'A' ≤ c && c ≤ 'F' then c.toNat - 'A'.toNat + 10
  else if 'a' ≤ c && c ≤ 'f' then c.toNat - 'a'.toNat + 10
  else 0

/-- Numeric value of an octal digit. -/
def octVal (c : Char) : Nat := c.toNat - '0'.toNat

/-- `SV_TABLE` lookup for the single character following the backslash in the
regex branch `[^ux0-7\r]` (src/index.js lines 287-299, 325-335): the
mnemonics map to their control characters, bare line terminators map to the
empty string (line continuation), and any other character — for which the
table lookup is `undefined` — maps to itself with the backslash dropped. -/
def svChar (c : Char) : List Char :=
  if c = 'b' then ['\u0008']
  else if c = 't' then ['\u0009']
  else if c = 'n' then ['\u000A']
  else if c = 'v' then ['\u000B']
  else if c = 'f' then ['\u000C']
  else if c = 'r' then ['\u000D']
  else if c = '\n' || c = '\u2028' || c = '\u2029' then []
  else [c]

/-- `cook` (src/index.js lines 282-283, 317-336): rewrites every match of
`ESCAPE_SEQUENCE = \\(?:[^ux0-7\r]|x[0-9A-Fa-f]{0,2}|u[0-9A-Fa-f]{4}|[0-3][0-7]{0,2}|[4-7][0-7]?|\r\n?)`
to its SV.  The `x` branch is greedy with 0-2 hex digits; with fewer than two
digits `parseInt` yields the value of the digits present, or `NaN` for none,
and `String.fromCharCode(NaN)` is U+0000.  The `u` branch requires exactly 4
hex digits; when it fails no alternative matches, the backslash stays in the
output and scanning resumes at the following character.  Octal branches are
greedy: up to 3 total digits when the first is 0-3, up to 2 when it is 4-7.
`\r\n?` handles line continuations that use CR or CRLF; LF and the two
Unicode separators reach the `[^ux0-7\r]` branch.  Lean's `Char` cannot hold
a lone surrogate; `Char.ofNat` maps such `\u` values to U+0000 (no claim
depends on surrogate escapes).  A failed `u` alternative must resume scanning
at the character after the backslash; the second argument of `cookAux` counts
characters to emit literally before escape scanning resumes, which keeps the
recursion structural. -/
def cookAux : List Char → Nat → List Char
  | [], _ => []
  | c :: rest, skip + 1 => c :: cookAux rest skip
  | '\\' :: 'u' :: h1 :: h2 :: h3 :: h4 :: rest6, 0 =>
    if isHexDigit h1 && isHexDigit h2 && isHexDigit h3 && isHexDigit h4 then
      Char.ofNat (((hexVal h1 * 16 + hexVal h2) * 16 + hexVal h3) * 16 + hexVal h4)
        :: cookAux rest6 0
    else '\\' :: cookAux ('u' :: h1 :: h2 :: h3 :: h4 :: rest6) 1
  | '\\' :: 'u' :: rest2, 0 => '\\' :: cookAux ('u' :: rest2) 1
  | '\\' :: 'x' :: h1 :: h2 :: rest4, 0 =>
    if isHexDigit h1 && isHexDigit h2 then
      Char.ofNat (hexVal h1 * 16 + hexVal h2) :: cookAux rest4 0
    else if isHexDigit h1 then Char.ofNat (hexVal h1) :: cookAux (h2 :: rest4) 0
    else '\u0000' :: cookAux (h1 :: h2 :: rest4) 0
  | '\\' :: 'x' :: h1 :: [], 0 =>
    if isHexDigit h1 then [Char.ofNat (hexVal h1)] else '\u0000' :: cookAux (h1 :: []) 0
  | '\\' :: 'x' :: [], 0 => ['\u0000']
  | '\\' :: '\r' :: '\n' :: rest3, 0 => cookAux rest3 0
  | '\\' :: '\r' :: rest2, 0 => cookAux rest2 0
  | '\\' :: d :: e1 :: e2 :: rest4, 0 =>
    if isOctalDigit d && d ≤ '3' then
      if isOctalDigit e1 then
        if isOctalDigit e2 then
          Char.ofNat ((octVal d * 8 + octVal e1) * 8 + octVal e2) :: cookAux rest4 0
        else Char.ofNat (octVal d * 8 + octVal e1) :: cookAux (e2 :: rest4) 0
      else Char.ofNat (octVal d) :: cookAux (e1 :: e2 :: rest4) 0
    else if isOctalDigit d then
      if isOctalDigit e1 then
        Char.ofNat (octVal d * 8 + octVal e1) :: cookAux (e2 :: rest4) 0
      else Char.ofNat (octVal d) :: cookAux (e1 :: e2 :: rest4) 0
    else svChar d ++ cookAux (e1 :: e2 :: rest4) 0
  | '\\' :: d :: e1 :: [], 0 =>
    if isOctalDigit d then
      if isOctalDigit e1 then [Char.ofNat (octVal d * 8 + octVal e1)]
      else Char.ofNat (octVal d) :: cookAux (e1 :: []) 0
    else svChar d ++ cookAux (e1 :: []) 0
  | '\\' :: d :: [], 0 =>
    if isOctalDigit d then [Char.ofNat (octVal d)] else svChar d
  | '\\' :: [], 0 => ['\\']
  | c :: rest, 0 => c :: cookAux rest 0

/-- Entry point of the cooking transform: no pending literal characters. -/
def cook (s : List Char) : List Char := cookAux s 0

/-- The options object of `trimCommonWhitespaceFromLines`
(src/index.js lines 233-236). -/
structure TrimOptions where
  trimEolAtStart : Bool := false
  trimEolAtEnd : Bool := false
deriving DecidableEq, Repr

/-- `trimCommonWhitespaceFromLines` (src/index.js lines 231-273).
When the computed common prefix is falsy and neither option is set, the input
object itself is returned (the fast path on line 252).  Otherwise the raw
chunks are copied and rewritten with the prefix pattern (a never-matching
pattern when the prefix is empty), one leading/trailing line-terminator token
is removed from the first/last chunk when requested (the source indexes the
last chunk with the destructured `length`, the cooked array's length), the
cooked view is recomputed by `cook`, the raw view is attached to the cooked
array, and both arrays are frozen.  (On an empty raw array with an EOL option
set the source would throw calling `.replace` on `undefined`; the model's
`getD`/`set` are no-ops there — no claim touches that degenerate input.) -/
def trimCommonWhitespaceFromLines (ts : TemplateStrings) (opts : TrimOptions := {}) :
    TemplateStrings :=
  let pfx := commonPrefixOfTemplateStrings ts
  if pfx = [] && !opts.trimEolAtStart && !opts.trimEolAtEnd then ts
  else
    let len := ts.cooked.length
    let trimmedRaw0 := ts.raw.map (fun chunk =>
      if pfx = [] then chunk else stripAfterBreaks pfx chunk)
    let trimmedRaw1 :=
      if opts.trimEolAtStart then
        trimmedRaw0.set 0 (dropLineTermAtStart (trimmedRaw0.getD 0 []))
      else trimmedRaw0
    let trimmedRaw2 :=
      if opts.trimEolAtEnd then
        trimmedRaw1.set (len - 1) (dropLineTermAtEnd (trimmedRaw1.getD (len - 1) []))
      else trimmedRaw1
    { cooked := trimmedRaw2.map cook
      raw := trimmedRaw2
      cookedFrozen := true
      rawFrozen := true }

/-- Modelled from claim C1's words, for comparison with the source: splits a
chunk at each *individual* line-terminator token drawn from the claim's list
"LF, CR, CRLF, U+2028, U+2029", with CRLF counting as a single token.  Under
this reading two consecutive line breaks (a blank line) produce an empty
fragment between them, unlike the source regex `[LF CR U+2028 U+2029]+`, which
consumes a maximal run of terminators as one separator. -/
def splitOnTermTokens : List Char → List (List Char)
  | [] => [[]]
  | '\r' :: '\n' :: rest => [] :: splitOnTermTokens rest
  | c :: rest =>
    if isLineTerm c then [] :: splitOnTermTokens rest
    else
      match splitOnTermTokens rest with
      | f :: fs => (c :: f) :: fs
      | [] => [[c]]

/-- Modelled from claim C1's words: the pairwise longest-common-prefix of the
leading whitespace runs of every line fragment obtained by
`splitOnTermTokens`, excluding the first fragment of each chunk. -/
def claimIndent (ts : TemplateStrings) : List Char :=
  match (ts.raw.map (fun chunk =>
          ((splitOnTermTokens chunk).drop 1).map wsRun)).flatten with
  | [] => []
  | p :: ps => ps.foldl commonPrefixOf p

/-- The specification's common-indentation computation with the amended
(run-based) splitting: collect the leading whitespace runs of every fragment
except each chunk's first — splitting on *maximal runs* of line terminators,
exactly as the source regex does — and reduce them by pairwise
longest-common-prefix. -/
def specCommonIndent (ts : TemplateStrings) : List Char :=
  match (ts.raw.map leadingWsRuns).flatten with
  | [] => []
  | p :: ps => ps.foldl commonPrefixOf p

/-- A JS value that may appear as an element of a chunk array: a string, or
anything else (only string-ness matters to validation). -/
inductive JsVal
  | str (s : List Char)
  | other
deriving DecidableEq, Repr

/-- An array passed as the first argument of a tag call: its elements, its
`raw` property (`none` when the property is missing), and the
`Object.isFrozen` status of the array itself and of its `raw` array. -/
structure JsArray where
  elems : List JsVal
  rawElems : Option (List JsVal)
  frozen : Bool
  rawFrozen : Bool
deriving DecidableEq, Repr

/-- A thrown JS value, reduced to its `message` property: `none` models a
thrown value without a string `message` (a non-Error, or `undefined`
message); `some ""` models `new Error()` with its empty message. -/
structure JsErr where
  message : Option String
deriving DecidableEq, Repr

/-- `exc.message || 'Failure'` (src/index.js line 145): a missing or empty
(falsy) message is replaced by the default `'Failure'`. -/
def errMessageOrFailure (e : JsErr) : String :=
  match e.message with
  | some m => if m = "" then "Failure" else m
  | none => "Failure"

/-- A memo-table entry (src/index.js lines 142, 145): `{ pass: value }` on
success, `{ fail: message }` on failure. -/
inductive StaticState (T : Type)
  | pass (v : T)
  | fail (msg : String)
deriving DecidableEq, Repr

/-- The mutable state shared by all tag functions built from one
`memoizedTagFunction` call: the `WeakMap` contents keyed by chunk-array
identity, plus an instrumentation counter of `computeStaticHelper`
invocations (the call count the spec's memoization properties speak of). -/
structure TagState (T : Type) where
  memo : List (Nat × StaticState T)
  calls : Nat
deriving DecidableEq, Repr

/-- `Object.isFrozen(staticStrings.raw)`: reading `.raw` off an array that
lacks the property gives `undefined`, and `Object.isFrozen` of a non-object
is `true`. -/
def isFrozenRaw (a : JsArray) : Bool :=
  match a.rawElems with
  | some _ => a.rawFrozen
  | none => true

/-- `staticStateFor` (src/index.js lines 132-155).  Identity of the chunk
array is modelled by the explicit key `id`; the array's *content* at call
time is `a`.  Cache-eligible (frozen, with frozen raw) arrays are looked up
by identity; on a miss `computeStatic` runs (the instrumentation counter
increments), a `pass` or `fail` entry is stored when eligible, and a fresh
failure re-throws the original error while a *cached* failure throws
`new Error(storedMessage)` — a fresh error carrying only the stored
message. -/
def staticStateFor {T : Type} (computeStatic : JsArray → Except JsErr T)
    (id : Nat) (a : JsArray) (st : TagState T) : Except JsErr T × TagState T :=
  let canMemoize := a.frozen && isFrozenRaw a
  let cached := if canMemoize then st.memo.lookup id else none
  match cached with
  | some (StaticState.pass v) => (Except.ok v, st)
  | some (StaticState.fail m) => (Except.error { message := some m }, st)
  | none =>
    match computeStatic a with
    | Except.ok v =>
      (Except.ok v,
       { memo := if canMemoize then (id, StaticState.pass v) :: st.memo else st.memo,
         calls := st.calls + 1 })
    | Except.error e =>
      (Except.error e,
       { memo :=
           if canMemoize then (id, StaticState.fail (errMessageOrFailure e)) :: st.memo
           else st.memo,
         calls := st.calls + 1 })

/-- The first positional argument of a call to the built tag function:
either a non-array value (carrying the configuration payload it would be
bound as, and its `raw` property if it has one), or an array with an
identity key. -/
inductive CallArg (O : Type)
  | nonArray (o : O) (rawProp : Option (List JsVal))
  | arr (id : Nat) (a : JsArray)
deriving DecidableEq, Repr

/-- `isString` (src/index.js lines 25-27) on a chunk element. -/
def isStringJs : JsVal → Bool
  | JsVal.str _ => true
  | JsVal.other => false

/-- The element check of `isStringArray` (src/index.js lines 29-31). -/
def isStringArrayVals (l : List JsVal) : Bool := l.all isStringJs

/-- `requireValidTagInputs` (src/index.js lines 80-89), returning the
validated array (with its identity) on success.  Destructuring `raw` off a
non-array and reading `raw.length` throws a `TypeError` when the property is
missing (likewise for `null`/`undefined` first arguments, which throw at the
destructuring itself); a present `raw` on a non-array fails the
`isStringArray(staticStrings)` conjunct and raises
`Error('Invalid static strings')`.  For arrays, a single combined check of
equal lengths and all-string elements guards `Error('Invalid static
strings')`, then the dynamic-value count must be exactly the chunk count
minus one. -/
def requireValidTagInputs {O : Type} (fa : CallArg O) (nDyns : Nat) :
    Except JsErr (Nat × JsArray) :=
  match fa with
  | CallArg.nonArray _ none =>
    Except.error { message := some "TypeError: cannot read property of undefined" }
  | CallArg.nonArray _ (some _) =>
    Except.error { message := some "Invalid static strings" }
  | CallArg.arr id a =>
    match a.rawElems with
    | none =>
      Except.error { message := some "TypeError: cannot read property of undefined" }
    | some raws =>
      if a.elems.length = raws.length
          && isStringArrayVals a.elems && isStringArrayVals raws then
        if nDyns + 1 = a.elems.length then Except.ok (id, a)
        else
          Except.error
            { message := some ("Too many or too few dynamic values: "
                ++ toString a.elems.length ++ " != " ++ toString nDyns) }
      else Except.error { message := some "Invalid static strings" }

/-- The observable outcome of one call to the built tag function: a new tag
function bound to a configuration, a returned value, or a thrown error. -/
inductive TagOutcome (O R : Type)
  | configured (o : O)
  | value (r : R)
  | thrown (e : JsErr)
deriving DecidableEq, Repr

/-- One call to the tag function returned by `usingOptions options`
(src/index.js lines 157-174).  With zero dynamic values and a non-array
first argument the call is a configure call: it returns a new tag function
bound to that argument (`usingOptions(staticStringsOrOptions)`), touching
nothing.  Otherwise the shape is validated eagerly, then `staticStateFor`
runs (argument evaluation order puts it before `computeResultHelper`), and
finally `computeResultHelper` receives the configuration, the static state,
the live chunk array and the dynamic values. -/
def tagCall {O T R D : Type} (computeStatic : JsArray → Except JsErr T)
    (computeResult : O → T → JsArray → List D → R)
    (options : O) (firstArg : CallArg O) (dyns : List D)
    (st : TagState T) : TagOutcome O R × TagState T :=
  match firstArg, dyns with
  | CallArg.nonArray o _, [] => (TagOutcome.configured o, st)
  | fa, ds =>
    match requireValidTagInputs fa ds.length with
    | Except.error e => (TagOutcome.thrown e, st)
    | Except.ok (id, a) =>
      match staticStateFor computeStatic id a st with
      | (Except.ok t, st2) => (TagOutcome.value (computeResult options t a ds), st2)
      | (Except.error e, st2) => (TagOutcome.thrown e, st2)

/-- Runs a sequence of calls against the same tag function, threading the
shared cache state and collecting each call's outcome. -/
def runCalls {O T R D : Type} (computeStatic : JsArray → Except JsErr T)
    (computeResult : O → T → JsArray → List D → R)
    (options : O) (callList : List (CallArg O × List D))
    (st : TagState T) : List (TagOutcome O R) × TagState T :=
  match callList with
  | [] => ([], st)
  | (fa, ds) :: rest =>
    let r1 := tagCall computeStatic computeResult options fa ds st
    let r2 := runCalls computeStatic computeResult options rest r1.2
    (r1.1 :: r2.1, r2.2)

/-- A general JS value, with just enough structure for the tag-invocation
detectors: primitives, plus arrays and plain objects carrying an optional
`raw` property and a frozen flag. -/
inductive JsValue
  | undef
  | null
  | boolv (b : Bool)
  | numv (n : Int)
  | strv (s : List Char)
  | arrv (elems : List JsValue) (rawProp : Option JsValue) (frozen : Bool)
  | objv (rawProp : Option JsValue) (frozen : Bool)

/-- JS truthiness of a value (`firstArgument && ...`).  `NaN` is not
modelled; `numv 0` is the only falsy number. -/
def truthy : JsValue → Bool
  | JsValue.undef => false
  | JsValue.null => false
  | JsValue.boolv b => b
  | JsValue.numv n => n != 0
  | JsValue.strv s => !s.isEmpty
  | JsValue.arrv _ _ _ => true
  | JsValue.objv _ _ => true

/-- `Object.isFrozen`: `true` for every non-object. -/
def isFrozenJs : JsValue → Bool
  | JsValue.arrv _ _ f => f
  | JsValue.objv _ f => f
  | _ => true

/-- `Array.isArray`. -/
def isArrayJs : JsValue → Bool
  | JsValue.arrv _ _ _ => true
  | _ => false

/-- Reading the `raw` property: throws `TypeError` on `null`/`undefined`,
yields the property (or `undefined`) on objects and arrays, and `undefined`
on boxed primitives. -/
def jsGetRaw : JsValue → Except JsErr JsValue
  | JsValue.undef => Except.error { message := some "TypeError" }
  | JsValue.null => Except.error { message := some "TypeError" }
  | JsValue.arrv _ rawProp _ => Except.ok (rawProp.getD JsValue.undef)
  | JsValue.objv rawProp _ => Except.ok (rawProp.getD JsValue.undef)
  | _ => Except.ok JsValue.undef

/-- Reading the `length` property: throws `TypeError` on `null`/`undefined`;
arrays and strings have a numeric length, all other values yield
`undefined`. -/
def jsGetLength : JsValue → Except JsErr JsValue
  | JsValue.undef => Except.error { message := some "TypeError" }
  | JsValue.null => Except.error { message := some "TypeError" }
  | JsValue.arrv elems _ _ => Except.ok (JsValue.numv elems.length)
  | JsValue.strv s => Except.ok (JsValue.numv s.length)
  | _ => Except.ok JsValue.undef

/-- Strict equality `===` restricted to the comparisons the detectors make
(a number against a possibly-`undefined` length). -/
def jsStrictEqNum (v : JsValue) (n : Int) : Bool :=
  match v with
  | JsValue.numv m => m == n
  | _ => false

/-- `===` between two possibly-`undefined` length values. -/
def jsStrictEqLen : JsValue → JsValue → Bool
  | JsValue.numv m, JsValue.numv n => m == n
  | JsValue.undef, JsValue.undef => true
  | _, _ => false

/-- `every.call(value, isString)`: for an array, every element is a string;
a string is array-like with single-character string elements, so it passes
vacuously-or-truly; any other value has no indices and passes vacuously. -/
def jsEveryString : JsValue → Bool
  | JsValue.arrv elems _ _ =>
    elems.all (fun v => match v with | JsValue.strv _ => true | _ => false)
  | _ => true

/-- `calledAsTemplateTagQuick` (src/index.js lines 48-57), with every
property read modelled strictly (`Except`): reads of `raw` and `length`
happen only behind the truthiness, frozenness and array guards, and
`raw.length` is read only after `Boolean(raw)` short-circuits. -/
def calledAsTemplateTagQuick (firstArgument : JsValue) (argumentCount : Nat) :
    Except JsErr Bool :=
  if truthy firstArgument && isFrozenJs firstArgument && isArrayJs firstArgument then
    match jsGetRaw firstArgument with
    | Except.error e => Except.error e
    | Except.ok raw =>
      match jsGetLength firstArgument with
      | Except.error e => Except.error e
      | Except.ok len =>
        if jsStrictEqNum len (Int.ofNat argumentCount) && truthy raw then
          match jsGetLength raw with
          | Except.error e => Except.error e
          | Except.ok rawLen =>
            Except.ok (jsStrictEqLen len rawLen && isFrozenJs raw && isArrayJs raw)
        else Except.ok false
  else Except.ok false

/-- `calledAsTemplateTag` (src/index.js lines 69-78): the quick check plus
the all-strings checks over both arrays (short-circuited, so `raw` is only
revisited when the quick check passed). -/
def calledAsTemplateTag (firstArgument : JsValue) (argumentCount : Nat) :
    Except JsErr Bool :=
  match calledAsTemplateTagQuick firstArgument argumentCount with
  | Except.error e => Except.error e
  | Except.ok q =>
    if q then
      match jsGetRaw firstArgument with
      | Except.error e => Except.error e
      | Except.ok raw => Except.ok (jsEveryString firstArgument && jsEveryString raw)
    else Except.ok false

/-- Claim C5 as stated is false on the code: the activation guard
`LINE_TERMINATORS.exec(raw[0])` is unanchored, so a first raw chunk that
merely *contains* a line break — here `'a\n  b'`, which does not start with
one — still activates trimming, and the input is not returned unmodified:
the two-space indent after the line break is stripped. -/
theorem C5_counterexample :
    isLineTerm 'a' = false
    ∧ (TemplateStrings.mk [S "a\n  b"] [S "a\n  b"] true true).raw.headD [] = 'a' :: S "\n  b"
    ∧ trimCommonWhitespaceFromLines (TemplateStrings.mk [S "a\n  b"] [S "a\n  b"] true true) {}
        ≠ TemplateStrings.mk [S "a\n  b"] [S "a\n  b"] true true := by
  refine ⟨rfl, by decide, by decide⟩

/-- Claim C5, amended: trimming activates only if the first raw chunk
*contains* a line terminator (anywhere, not necessarily at the start); when
the first raw chunk contains none and neither `trimEolAtStart` nor
`trimEolAtEnd` is requested, the input chunk-sequence object itself is
returned verbatim. -/
theorem C5_theorem (ts : TemplateStrings) (opts : TrimOptions)
    (h : (ts.raw.headD []).any isLineTerm = false)
    (hs : opts.trimEolAtStart = false) (he : opts.trimEolAtEnd = false) :
    trimCommonWhitespaceFromLines ts opts = ts := by
  have hp : commonPrefixOfTemplateStrings ts = [] := by
    unfold commonPrefixOfTemplateStrings
    rw [h, if_neg Bool.false_ne_true]
  unfold trimCommonWhitespaceFromLines
  simp [hp, hs, he]

/-- Witness for C5_theorem at a concrete input with no line terminator. -/
theorem C5_witness :
    trimCommonWhitespaceFromLines (TemplateStrings.mk [S "foo"] [S "foo"] true true) {}
      = TemplateStrings.mk [S "foo"] [S "foo"] true true :=
  C5_theorem _ _ (by decide) rfl rfl

/-- Claim C9 as stated is false on the code: the fast path (src/index.js
line 252) returns the input object itself, so calling the trimmer on an
unfrozen chunk sequence that needs no trimming yields an unfrozen result. -/
theorem C9_counterexample :
    (trimCommonWhitespaceFromLines
        (TemplateStrings.mk [S "foo"] [S "foo"] false false) {}).cookedFrozen = false
    ∧ (trimCommonWhitespaceFromLines
        (TemplateStrings.mk [S "foo"] [S "foo"] false false) {}).rawFrozen = false := by
  constructor <;> decide

/-- Claim C9, amended: whenever trimming does any work (a non-empty common
prefix was found, or an EOL-trim option was requested), the result's cooked
sequence and its attached raw sequence are both frozen, and the cooked view
is the escape-processing of the attached raw view; on the fast path the
input object is returned as-is and is frozen exactly when the input was. -/
theorem C9_theorem (ts : TemplateStrings) (opts : TrimOptions)
    (h : commonPrefixOfTemplateStrings ts ≠ [] ∨ opts.trimEolAtStart = true
          ∨ opts.trimEolAtEnd = true) :
    (trimCommonWhitespaceFromLines ts opts).cookedFrozen = true
    ∧ (trimCommonWhitespaceFromLines ts opts).rawFrozen = true
    ∧ (trimCommonWhitespaceFromLines ts opts).cooked
        = (trimCommonWhitespaceFromLines ts opts).raw.map cook := by
  unfold trimCommonWhitespaceFromLines
  rcases h with h | h | h <;> simp [h]

/-- Witness for C9_theorem at a concrete input whose trimming activates. -/
theorem C9_witness :
    (trimCommonWhitespaceFromLines
        (TemplateStrings.mk [S "\n  bar"] [S "\n  bar"] true true) {}).cookedFrozen = true
    ∧ (trimCommonWhitespaceFromLines
        (TemplateStrings.mk [S "\n  bar"] [S "\n  bar"] true true) {}).rawFrozen = true
    ∧ (trimCommonWhitespaceFromLines
        (TemplateStrings.mk [S "\n  bar"] [S "\n  bar"] true true) {}).cooked
        = (trimCommonWhitespaceFromLines
            (TemplateStrings.mk [S "\n  bar"] [S "\n  bar"] true true) {}).raw.map cook :=
  C9_theorem _ _ (Or.inl (by decide))

/-- The JS `for (let i = 0; i < length; ++i)` loop over `raw[i]` is the fold
of `raw` itself when `length` is `raw`'s length. -/
theorem foldl_range_getD {α β : Type} (l : List α) (d : α) (f : β → α → β) (b : β) :
    (List.range l.length).foldl (fun acc i => f acc (l.getD i d)) b = l.foldl f b := by
  induction l generalizing b with
  | nil => rfl
  | cons a t ih =>
    show (List.range (t.length + 1)).foldl _ b = _
    rw [List.range_succ_eq_map]
    simp only [List.foldl_cons, List.foldl_map, List.getD_cons_zero, List.getD_cons_succ]
    exact ih (f b a)

/-- Folding `lcpStep` from a non-null accumulator is a plain
longest-common-prefix fold. -/
theorem foldl_lcpStep_some (rs : List (List Char)) (p : List Char) :
    rs.foldl lcpStep (some p) = some (rs.foldl commonPrefixOf p) := by
  induction rs generalizing p with
  | nil => rfl
  | cons r rest ih => simp only [List.foldl_cons, lcpStep, ih]

/-- Folding `lcpStep` from the null accumulator seeds with the first run. -/
theorem foldl_lcpStep_none (rs : List (List Char)) :
    rs.foldl lcpStep none
      = match rs with
        | [] => none
        | p :: ps => some (ps.foldl commonPrefixOf p) := by
  cases rs with
  | nil => rfl
  | cons p ps => simp only [List.foldl_cons, lcpStep, foldl_lcpStep_some]

/-- The nested chunk-by-chunk, line-by-line fold of the source equals one
fold over the flattened list of leading whitespace runs. -/
theorem chunksFold_eq_flatten (chunks : List (List Char)) :
    chunks.foldl (fun acc c => (leadingWsRuns c).foldl lcpStep acc) none
      = match (chunks.map leadingWsRuns).flatten with
        | [] => none
        | p :: ps => some (ps.foldl commonPrefixOf p) := by
  rw [← foldl_lcpStep_none]
  rw [List.foldl_flatten]
  rw [List.foldl_map]

/-- The longest common prefix of `a` and `b` is a prefix of `a`. -/
theorem commonPrefixOf_prefixLeft (a b : List Char) : commonPrefixOf a b <+: a := by
  induction a generalizing b with
  | nil => cases b <;> simp [commonPrefixOf]
  | cons x xs ih =>
    cases b with
    | nil => simp [commonPrefixOf]
    | cons y ys =>
      by_cases h : x = y
      · simpa [commonPrefixOf, h, List.prefix_cons_inj] using ih ys
      · simp [commonPrefixOf, h]

/-- A longest-common-prefix fold only ever shrinks its accumulator. -/
theorem foldl_commonPrefixOf_shrinks (ps : List (List Char)) (p : List Char) :
    ps.foldl commonPrefixOf p <+: p := by
  induction ps generalizing p with
  | nil => exact List.prefix_refl _
  | cons r rest ih =>
    exact (ih (commonPrefixOf p r)).trans (commonPrefixOf_prefixLeft p r)

/-- Every character of a longest-common-prefix fold over leading whitespace
runs is a whitespace character. -/
theorem flatten_runs_allWs (chunks : List (List Char)) (p : List Char)
    (ps : List (List Char)) (h : (chunks.map leadingWsRuns).flatten = p :: ps) :
    ∀ c ∈ ps.foldl commonPrefixOf p, isWsChar c = true := by
  intro c hc
  have hcp : c ∈ p := (foldl_commonPrefixOf_shrinks ps p).subset hc
  have hpmem : p ∈ (chunks.map leadingWsRuns).flatten := by
    rw [h]; exact List.mem_cons_self _ _
  rcases List.mem_flatten.mp hpmem with ⟨runs, hruns, hpr⟩
  rcases List.mem_map.mp hruns with ⟨chunk, _, hch⟩
  subst hch
  rcases List.mem_map.mp hpr with ⟨ln, _, hln⟩
  subst hln
  exact List.mem_takeWhile_imp hcp

/-- A whitespace-class character is never a line terminator. -/
theorem wsChar_not_lineTerm (c : Char) (h : isWsChar c = true) : isLineTerm c = false := by
  simp only [isWsChar, Bool.or_eq_true, decide_eq_true_eq] at h
  rcases h with ((((h | h) | h) | h) | h) | h <;> subst h <;> rfl

/-- Reduction: deleting a pending character. -/
theorem stripAux_skip (pfx : List Char) (c : Char) (rest : List Char) (k : Nat) :
    stripAux pfx (c :: rest) (k + 1) = stripAux pfx rest k := rfl

/-- Reduction: an ordinary character is copied. -/
theorem stripAux_nonterm (pfx : List Char) (c : Char) (rest : List Char)
    (hc : isLineTerm c = false) :
    stripAux pfx (c :: rest) 0 = c :: stripAux pfx rest 0 := by
  cases rest <;> simp [stripAux, hc]

/-- Reduction: a line terminator whose run continues is copied. -/
theorem stripAux_term_term (pfx : List Char) (c r : Char) (rest2 : List Char)
    (hc : isLineTerm c = true) (hr : isLineTerm r = true) :
    stripAux pfx (c :: r :: rest2) 0 = c :: stripAux pfx (r :: rest2) 0 := by
  simp [stripAux, hc, hr]

/-- Reduction: at the end of a terminator run, a matching prefix is
scheduled for deletion. -/
theorem stripAux_term_strip (pfx : List Char) (c r : Char) (rest2 : List Char)
    (hc : isLineTerm c = true) (hr : isLineTerm r = false)
    (hpre : pfx.isPrefixOf (r :: rest2) = true) :
    stripAux pfx (c :: r :: rest2) 0 = c :: stripAux pfx (r :: rest2) pfx.length := by
  simp [stripAux, hc, hr, hpre]

/-- Reduction: at the end of a terminator run with no prefix match,
scanning continues. -/
theorem stripAux_term_noStrip (pfx : List Char) (c r : Char) (rest2 : List Char)
    (hc : isLineTerm c = true) (hr : isLineTerm r = false)
    (hpre : pfx.isPrefixOf (r :: rest2) = false) :
    stripAux pfx (c :: r :: rest2) 0 = c :: stripAux pfx (r :: rest2) 0 := by
  simp [stripAux, hc, hr, hpre]

/-- Reduction: a trailing line terminator is copied. -/
theorem stripAux_term_last (pfx : List Char) (c : Char) (hc : isLineTerm c = true) :
    stripAux pfx [c] 0 = [c] := by
  simp [stripAux, hc]

/-- Stripping with an empty prefix is the identity (the never-matching
pattern case). -/
theorem stripAfterBreaks_nil (s : List Char) : stripAfterBreaks [] s = s := by
  unfold stripAfterBreaks
  induction s with
  | nil => rfl
  | cons c rest ih =>
    by_cases hc : isLineTerm c
    · cases rest with
      | nil => rw [stripAux_term_last _ _ hc]
      | cons r rest2 =>
        cases hr : isLineTerm r with
        | true => rw [stripAux_term_term _ _ _ _ hc hr, ih]
        | false =>
          rw [stripAux_term_strip _ _ _ _ hc hr (by simp [List.isPrefixOf])]
          simpa using ih
    · rw [stripAux_nonterm _ _ _ (by simpa using hc), ih]

/-- A successful `isPrefixOf` decomposes the longer list. -/
theorem isPrefixOf_append_drop {l1 l2 : List Char} (h : l1.isPrefixOf l2 = true) :
    l1 ++ l2.drop l1.length = l2 := by
  induction l1 generalizing l2 with
  | nil => simp
  | cons a as ih =>
    cases l2 with
    | nil => simp [List.isPrefixOf] at h
    | cons b bs =>
      simp only [List.isPrefixOf, Bool.and_eq_true, beq_iff_eq] at h
      obtain ⟨hab, hrest⟩ := h
      subst hab
      simp [ih hrest]

/-- Stripping a terminator-free prefix after line breaks preserves the
sequence of line-terminator characters in the not-yet-deleted part of the
input. -/
theorem stripAux_filter (pfx : List Char) (hp : ∀ c ∈ pfx, isLineTerm c = false) :
    ∀ (s : List Char) (k : Nat),
      (stripAux pfx s k).filter isLineTerm = (s.drop k).filter isLineTerm := by
  intro s
  induction s with
  | nil => intro k; simp [stripAux]
  | cons c rest ih =>
    intro k
    cases k with
    | succ k' => rw [stripAux_skip, List.drop_succ_cons]; exact ih k'
    | zero =>
      cases hc : isLineTerm c with
      | true =>
        cases rest with
        | nil => rw [stripAux_term_last _ _ hc]; simp
        | cons r rest2 =>
          cases hr : isLineTerm r with
          | true =>
            rw [stripAux_term_term _ _ _ _ hc hr, List.drop_zero,
              List.filter_cons, List.filter_cons]
            have h0 := ih 0
            rw [List.drop_zero] at h0
            rw [h0]
          | false =>
            cases hpre : pfx.isPrefixOf (r :: rest2) with
            | true =>
              obtain ⟨t, ht⟩ : ∃ t, pfx ++ t = r :: rest2 :=
                ⟨(r :: rest2).drop pfx.length, isPrefixOf_append_drop hpre⟩
              have hfp : pfx.filter isLineTerm = [] :=
                List.filter_eq_nil_iff.mpr (fun a ha => by simp [hp a ha])
              have hdrop : (r :: rest2).drop pfx.length = t := by
                rw [← ht]; exact List.drop_left _ _
              have h2 := ih pfx.length
              rw [hdrop] at h2
              rw [stripAux_term_strip _ _ _ _ hc hr hpre,
                List.drop_zero, List.filter_cons, List.filter_cons, h2, ← ht,
                List.filter_append, hfp]
              simp
            | false =>
              rw [stripAux_term_noStrip _ _ _ _ hc hr hpre, List.drop_zero,
                List.filter_cons, List.filter_cons]
              have h0 := ih 0
              rw [List.drop_zero] at h0
              rw [h0]
      | false =>
        rw [stripAux_nonterm _ _ _ hc, List.drop_zero,
          List.filter_cons, List.filter_cons]
        have h0 := ih 0
        rw [List.drop_zero] at h0
        rw [h0]


/-- The indices `0 .. length-1` read back the list itself. -/
theorem range_map_getD {α : Type} (l : List α) (d : α) :
    (List.range l.length).map (fun i => l.getD i d) = l := by
  induction l with
  | nil => rfl
  | cons a t ih =>
    show (List.range (t.length + 1)).map _ = _
    rw [List.range_succ_eq_map]
    simp only [List.map_cons, List.map_map, List.getD_cons_zero]
    have hc : ((fun i => (a :: t).getD i d) ∘ Nat.succ) = fun i => t.getD i d := by
      funext i; simp [List.getD_cons_succ]
    rw [hc, ih]

/-- The source's indexed double loop, rewritten as the match on the
flattened list of leading whitespace runs of the chunks it visits. -/
theorem rangeFold_eq_flatten (raw : List (List Char)) (n : Nat) :
    (List.range n).foldl
        (fun acc i =>
          (((splitOnTermRuns (raw.getD i [])).drop 1).foldl
            (fun a ln => lcpStep a (wsRun ln)) acc)) none
      = match (((List.range n).map (fun i => raw.getD i [])).map leadingWsRuns).flatten with
        | [] => none
        | p :: ps => some (ps.foldl commonPrefixOf p) := by
  have hinner : ∀ (acc : Option (List Char)) (c : List Char),
      ((splitOnTermRuns c).drop 1).foldl (fun a ln => lcpStep a (wsRun ln)) acc
        = (leadingWsRuns c).foldl lcpStep acc := by
    intro acc c
    rw [leadingWsRuns, List.foldl_map]
  simp only [hinner]
  rw [← chunksFold_eq_flatten, List.foldl_map]

/-- Every character of the common prefix computed by the source is
whitespace. -/
theorem cpots_allWs (ts : TemplateStrings) :
    ∀ c ∈ commonPrefixOfTemplateStrings ts, isWsChar c = true := by
  unfold commonPrefixOfTemplateStrings
  cases hg : (ts.raw.headD []).any isLineTerm with
  | false => rw [if_neg Bool.false_ne_true]; simp
  | true =>
    rw [if_pos rfl]
    rw [rangeFold_eq_flatten]
    cases hfl : (((List.range ts.cooked.length).map
        (fun i => ts.raw.getD i [])).map leadingWsRuns).flatten with
    | nil => simp
    | cons p ps =>
      simp only [Option.getD_some]
      exact flatten_runs_allWs _ p ps hfl

/-- Under the lengths invariant of a genuine template object and an
activating first chunk, the source's common-prefix computation equals the
specification's flatten-then-LCP-reduce description (with run-based
splitting). -/
theorem cpots_eq_specCommonIndent (ts : TemplateStrings)
    (hlen : ts.cooked.length = ts.raw.length)
    (hact : (ts.raw.headD []).any isLineTerm = true) :
    commonPrefixOfTemplateStrings ts = specCommonIndent ts := by
  unfold commonPrefixOfTemplateStrings specCommonIndent
  rw [hact, if_pos rfl]
  rw [rangeFold_eq_flatten, hlen, range_map_getD]
  cases hfl : (ts.raw.map leadingWsRuns).flatten with
  | nil => rfl
  | cons p ps => rfl

/-- Claim C1 as stated is false on the code: the claim's splitting, at each
individual line-terminator token (LF, CR, CRLF, U+2028, U+2029), makes a
blank line contribute an empty fragment whose leading whitespace run is
empty, collapsing the claimed common indentation to the empty string on the
raw chunk `'\n\n  a\n  b'`; but the source splits on *maximal runs* of
terminators (`[\n\r..]+`), computes the two-space common indentation, and
strips it, so the cooked result is `['\n\na\nb']`, not the unchanged chunk
the claim's procedure predicts. -/
theorem C1_counterexample :
    claimIndent (TemplateStrings.mk [S "\n\n  a\n  b"] [S "\n\n  a\n  b"] true true) = []
    ∧ commonPrefixOfTemplateStrings
        (TemplateStrings.mk [S "\n\n  a\n  b"] [S "\n\n  a\n  b"] true true) = S "  "
    ∧ (trimCommonWhitespaceFromLines
        (TemplateStrings.mk [S "\n\n  a\n  b"] [S "\n\n  a\n  b"] true true) {}).raw
        = [S "\n\na\nb"]
    ∧ (trimCommonWhitespaceFromLines
        (TemplateStrings.mk [S "\n\n  a\n  b"] [S "\n\n  a\n  b"] true true) {}).raw
        ≠ [S "\n\n  a\n  b"].map
            (stripAfterBreaks (claimIndent
              (TemplateStrings.mk [S "\n\n  a\n  b"] [S "\n\n  a\n  b"] true true))) := by
  refine ⟨by decide, by decide, by decide, by decide⟩

/-- Claim C1, amended: splitting is on *maximal runs* of consecutive line
terminators (so a CRLF pair — and equally a blank line — forms a single
boundary contributing no fragment).  With that amendment: (1) on a
length-consistent chunk sequence whose first raw chunk activates trimming,
the source's common indentation is the pairwise longest-common-prefix
reduction of the leading whitespace runs of every fragment except each
chunk's first; (2) when the common prefix is non-empty the trimmer rewrites
every raw chunk by stripping exactly that prefix after every
line-terminator run and cooks each trimmed chunk; (3) stripping preserves
every line-break character; and (4) the claim's concrete example trims as
stated. -/
theorem C1_theorem :
    (∀ ts : TemplateStrings, ts.cooked.length = ts.raw.length →
      (ts.raw.headD []).any isLineTerm = true →
      commonPrefixOfTemplateStrings ts = specCommonIndent ts)
    ∧ (∀ ts : TemplateStrings, commonPrefixOfTemplateStrings ts ≠ [] →
      (trimCommonWhitespaceFromLines ts {}).raw
        = ts.raw.map (stripAfterBreaks (commonPrefixOfTemplateStrings ts))
      ∧ (trimCommonWhitespaceFromLines ts {}).cooked
        = (ts.raw.map (stripAfterBreaks (commonPrefixOfTemplateStrings ts))).map cook)
    ∧ (∀ (ts : TemplateStrings) (s : List Char),
      (stripAfterBreaks (commonPrefixOfTemplateStrings ts) s).filter isLineTerm
        = s.filter isLineTerm)
    ∧ trimCommonWhitespaceFromLines
        (TemplateStrings.mk [S "\n      \x7b\n        Hello, ", S "!\n      \x7d"]
          [S "\n      \x7b\n        Hello, ", S "!\n      \x7d"] true true) {}
        = TemplateStrings.mk [S "\n\x7b\n  Hello, ", S "!\n\x7d"]
            [S "\n\x7b\n  Hello, ", S "!\n\x7d"] true true := by
  refine ⟨fun ts hlen hact => cpots_eq_specCommonIndent ts hlen hact, ?_, ?_, by decide⟩
  · intro ts h
    unfold trimCommonWhitespaceFromLines
    constructor <;> simp [h]
  · intro ts s
    cases hp : commonPrefixOfTemplateStrings ts with
    | nil => rw [stripAfterBreaks_nil]
    | cons x xs =>
      have hws : ∀ c ∈ commonPrefixOfTemplateStrings ts, isWsChar c = true := cpots_allWs ts
      rw [hp] at hws
      have hnt : ∀ c ∈ x :: xs, isLineTerm c = false :=
        fun c hc => wsChar_not_lineTerm c (hws c hc)
      have := stripAux_filter (x :: xs) hnt s 0
      rw [List.drop_zero] at this
      exact this

/-- Witness for C1_theorem's quantified conjuncts at the claim's example. -/
theorem C1_witness :
    commonPrefixOfTemplateStrings
        (TemplateStrings.mk [S "\n      \x7b\n        Hello, ", S "!\n      \x7d"]
          [S "\n      \x7b\n        Hello, ", S "!\n      \x7d"] true true)
      = specCommonIndent
          (TemplateStrings.mk [S "\n      \x7b\n        Hello, ", S "!\n      \x7d"]
            [S "\n      \x7b\n        Hello, ", S "!\n      \x7d"] true true)
    ∧ (trimCommonWhitespaceFromLines
        (TemplateStrings.mk [S "\n  a"] [S "\n  a"] true true) {}).raw
        = [S "\n  a"].map (stripAfterBreaks (commonPrefixOfTemplateStrings
            (TemplateStrings.mk [S "\n  a"] [S "\n  a"] true true))) :=
  ⟨C1_theorem.1 _ (by decide) (by decide),
   (C1_theorem.2.1 _ (by decide)).1⟩

/-- Claim C7: with `trimEolAtStart` the trimmer removes exactly one leading
line-break token (of any recognized form: LF, CRLF, lone CR, U+2028,
U+2029) from the first chunk if one is present, and with `trimEolAtEnd`
exactly one trailing token from the last chunk; the removals happen even
when no common prefix was found; and on the single raw chunk
`'\n          bar\n          '` with both options the cooked result is
`['bar']`. -/
theorem C7_theorem :
    (∀ rest : List Char,
      dropLineTermAtStart ('\n' :: rest) = rest
      ∧ dropLineTermAtStart ('\u2028' :: rest) = rest
      ∧ dropLineTermAtStart ('\u2029' :: rest) = rest
      ∧ dropLineTermAtStart ('\r' :: '\n' :: rest) = rest)
    ∧ (∀ rest : List Char, rest.head? ≠ some '\n' →
      dropLineTermAtStart ('\r' :: rest) = rest)
    ∧ (∀ s : List Char, (∀ c, s.head? = some c → isLineTerm c = false) →
      dropLineTermAtStart s = s)
    ∧ (∀ s : List Char,
      dropLineTermAtEnd (s ++ ['\r', '\n']) = s
      ∧ dropLineTermAtEnd (s ++ ['\u2028']) = s
      ∧ dropLineTermAtEnd (s ++ ['\u2029']) = s
      ∧ dropLineTermAtEnd (s ++ ['\r']) = s)
    ∧ (∀ s : List Char, s.getLast? ≠ some '\r' → dropLineTermAtEnd (s ++ ['\n']) = s)
    ∧ (∀ s : List Char, (∀ c, s.getLast? = some c → isLineTerm c = false) →
      dropLineTermAtEnd s = s)
    ∧ trimCommonWhitespaceFromLines
        (TemplateStrings.mk [S "\n          bar\n          "]
          [S "\n          bar\n          "] true true)
        { trimEolAtStart := true, trimEolAtEnd := true }
        = TemplateStrings.mk [S "bar"] [S "bar"] true true
    ∧ commonPrefixOfTemplateStrings
        (TemplateStrings.mk [S "\nbar\n"] [S "\nbar\n"] true true) = []
    ∧ trimCommonWhitespaceFromLines
        (TemplateStrings.mk [S "\nbar\n"] [S "\nbar\n"] true true)
        { trimEolAtStart := true, trimEolAtEnd := true }
        = TemplateStrings.mk [S "bar"] [S "bar"] true true := by
  refine ⟨?_, ?_, ?_, ?_, ?_, ?_, by decide, by decide, by decide⟩
  · intro rest
    refine ⟨rfl, rfl, rfl, rfl⟩
  · intro rest h
    cases rest with
    | nil => rfl
    | cons r rest2 =>
      have hr : ¬r = '\n' := fun hh => h (by rw [hh]; rfl)
      simp [dropLineTermAtStart, hr]
  · intro s h
    cases s with
    | nil => rfl
    | cons c rest =>
      have hc : isLineTerm c = false := h c rfl
      simp only [isLineTerm, Bool.or_eq_false_iff, decide_eq_false_iff_not] at hc
      obtain ⟨⟨⟨h1, h2⟩, h3⟩, h4⟩ := hc
      simp [dropLineTermAtStart, h1, h2, h3, h4]
  · intro s
    refine ⟨?_, ?_, ?_, ?_⟩ <;>
      simp [dropLineTermAtEnd, dropTokenRev, List.reverse_append, isLineTerm]
  · intro s h
    cases hs : s.reverse with
    | nil =>
      have : s = [] := by simpa using congrArg List.reverse hs
      subst this
      rfl
    | cons c rev2 =>
      have hlast : s.getLast? = some c := by rw [← List.head?_reverse, hs]; rfl
      have hc : ¬c = '\r' := fun hh => h (hh ▸ hlast)
      have hrev : (s ++ ['\n']).reverse = '\n' :: c :: rev2 := by
        rw [List.reverse_append, hs]; rfl
      unfold dropLineTermAtEnd
      rw [hrev]
      simp [dropTokenRev, hc]
      rw [← List.reverse_cons, ← hs, List.reverse_reverse]
  · intro s h
    cases hs : s.reverse with
    | nil =>
      have : s = [] := by simpa using congrArg List.reverse hs
      subst this
      rfl
    | cons c rev2 =>
      have hlast : s.getLast? = some c := by rw [← List.head?_reverse, hs]; rfl
      have hc : isLineTerm c = false := h c hlast
      have hcn : ¬c = '\n' := by
        intro hh; rw [hh] at hc; exact absurd hc (by decide)
      unfold dropLineTermAtEnd
      rw [hs]
      simp [dropTokenRev, hcn, hc]
      rw [← List.reverse_cons, ← hs, List.reverse_reverse]

/-- Witness for C7_theorem's hypothesis-bearing conjuncts at concrete
inputs. -/
theorem C7_witness :
    dropLineTermAtStart ('\r' :: S "x") = S "x"
    ∧ dropLineTermAtStart (S "x\n") = S "x\n"
    ∧ dropLineTermAtEnd (S "x" ++ ['\n']) = S "x"
    ∧ dropLineTermAtEnd (S "\nx") = S "\nx" :=
  ⟨C7_theorem.2.1 (S "x") (by decide),
   C7_theorem.2.2.1 (S "x\n") (fun c hc => by
     injection hc with h2; subst h2; decide),
   C7_theorem.2.2.2.2.1 (S "x") (by decide),
   C7_theorem.2.2.2.2.2.1 (S "\nx") (fun c hc => by
     rw [show (S "\nx").getLast? = some 'x' from rfl] at hc
     injection hc with h2; subst h2; decide)⟩

/-- On the trimming path the cooked view is obtained by cooking each
trimmed raw chunk. -/
theorem trim_cooked_eq_map_cook (ts : TemplateStrings) (opts : TrimOptions)
    (h : commonPrefixOfTemplateStrings ts ≠ [] ∨ opts.trimEolAtStart = true
          ∨ opts.trimEolAtEnd = true) :
    (trimCommonWhitespaceFromLines ts opts).cooked
      = (trimCommonWhitespaceFromLines ts opts).raw.map cook := by
  unfold trimCommonWhitespaceFromLines
  rcases h with h | h | h <;> simp [h]

/-- Claim C4: the cooked view applies the source grammar's escape semantics
to each trimmed raw chunk independently: a backslash before a non-special
character yields that character; `\x` + two hex digits and `\u` + four hex
digits yield the corresponding code unit; legacy octal escapes (greedy, up
to three digits when starting 0-3, up to two when starting 4-7) yield the
code unit of their octal value; a backslash before a line break (LF, CR,
CRLF, U+2028, U+2029) contributes nothing to the cooked output while
remaining in the raw output; and the mnemonics b, t, n, v, f, r yield their
control characters. -/
theorem C4_theorem :
    (∀ (c : Char) (rest : List Char), c ≠ 'u' → c ≠ 'x' → isOctalDigit c = false →
      isLineTerm c = false → c ≠ 'b' → c ≠ 't' → c ≠ 'n' → c ≠ 'v' → c ≠ 'f' → c ≠ 'r' →
      cook ('\\' :: c :: rest) = c :: cook rest)
    ∧ (∀ (h1 h2 : Char) (rest : List Char), isHexDigit h1 = true → isHexDigit h2 = true →
      cook ('\\' :: 'x' :: h1 :: h2 :: rest)
        = Char.ofNat (hexVal h1 * 16 + hexVal h2) :: cook rest)
    ∧ (∀ (h1 h2 h3 h4 : Char) (rest : List Char), isHexDigit h1 = true →
      isHexDigit h2 = true → isHexDigit h3 = true → isHexDigit h4 = true →
      cook ('\\' :: 'u' :: h1 :: h2 :: h3 :: h4 :: rest)
        = Char.ofNat (((hexVal h1 * 16 + hexVal h2) * 16 + hexVal h3) * 16 + hexVal h4)
            :: cook rest)
    ∧ (∀ (d e1 e2 : Char) (rest : List Char), isOctalDigit d = true → d ≤ '3' →
      isOctalDigit e1 = true → isOctalDigit e2 = true →
      cook ('\\' :: d :: e1 :: e2 :: rest)
        = Char.ofNat ((octVal d * 8 + octVal e1) * 8 + octVal e2) :: cook rest)
    ∧ (∀ (d e1 e2 : Char) (rest : List Char), isOctalDigit d = true → ¬d ≤ '3' →
      isOctalDigit e1 = true →
      cook ('\\' :: d :: e1 :: e2 :: rest)
        = Char.ofNat (octVal d * 8 + octVal e1) :: cook (e2 :: rest))
    ∧ (∀ (d e1 e2 : Char) (rest : List Char), isOctalDigit d = true →
      isOctalDigit e1 = false →
      cook ('\\' :: d :: e1 :: e2 :: rest)
        = Char.ofNat (octVal d) :: cook (e1 :: e2 :: rest))
    ∧ (∀ rest : List Char,
      cook ('\\' :: '\n' :: rest) = cook rest
      ∧ cook ('\\' :: '\u2028' :: rest) = cook rest
      ∧ cook ('\\' :: '\u2029' :: rest) = cook rest
      ∧ cook ('\\' :: '\r' :: '\n' :: rest) = cook rest)
    ∧ (∀ (r : Char) (rest : List Char), r ≠ '\n' →
      cook ('\\' :: '\r' :: r :: rest) = cook (r :: rest))
    ∧ (∀ rest : List Char,
      cook ('\\' :: 'b' :: rest) = '\u0008' :: cook rest
      ∧ cook ('\\' :: 't' :: rest) = '\u0009' :: cook rest
      ∧ cook ('\\' :: 'n' :: rest) = '\u000A' :: cook rest
      ∧ cook ('\\' :: 'v' :: rest) = '\u000B' :: cook rest
      ∧ cook ('\\' :: 'f' :: rest) = '\u000C' :: cook rest
      ∧ cook ('\\' :: 'r' :: rest) = '\u000D' :: cook rest)
    ∧ (∀ (ts : TemplateStrings) (opts : TrimOptions),
      commonPrefixOfTemplateStrings ts ≠ [] ∨ opts.trimEolAtStart = true
        ∨ opts.trimEolAtEnd = true →
      (trimCommonWhitespaceFromLines ts opts).cooked
        = (trimCommonWhitespaceFromLines ts opts).raw.map cook)
    ∧ cook (S "\\foo \\u1234 \\x56 \\n \\0") = S "\u000Coo \u1234 V \n \u0000"
    ∧ trimCommonWhitespaceFromLines
        (TemplateStrings.mk [S "\n      foo\\\n      bar"]
          [S "\n      foo\\\n      bar"] true true) {}
        = TemplateStrings.mk [S "\nfoobar"] [S "\nfoo\\\nbar"] true true := by
  refine ⟨?_, ?_, ?_, ?_, ?_, ?_, ?_, ?_, ?_,
    fun ts opts h => trim_cooked_eq_map_cook ts opts h, by decide, by decide⟩
  · intro c rest hu hx hoct hterm hb ht hn hv hf hr
    have hcr : c ≠ '\r' := fun hh => by subst hh; exact absurd hterm (by decide)
    have hcn : c ≠ '\n' := fun hh => by subst hh; exact absurd hterm (by decide)
    have h28 : c ≠ '\u2028' := fun hh => by subst hh; exact absurd hterm (by decide)
    have h29 : c ≠ '\u2029' := fun hh => by subst hh; exact absurd hterm (by decide)
    cases rest with
    | nil => simp [cook, cookAux, svChar, hu, hx, hoct, hb, ht, hn, hv, hf, hr, hcr, hcn, h28, h29]
    | cons e1 rest3 =>
      cases rest3 with
      | nil => simp [cook, cookAux, svChar, hu, hx, hoct, hb, ht, hn, hv, hf, hr, hcr, hcn, h28, h29]
      | cons e2 rest4 =>
        simp [cook, cookAux, svChar, hu, hx, hoct, hb, ht, hn, hv, hf, hr, hcr, hcn, h28, h29]
  · intro h1 h2 rest hh1 hh2
    simp [cook, cookAux, hh1, hh2]
  · intro h1 h2 h3 h4 rest hh1 hh2 hh3 hh4
    simp [cook, cookAux, hh1, hh2, hh3, hh4]
  · intro d e1 e2 rest hd hd3 he1 he2
    have hdu : d ≠ 'u' := fun hh => by subst hh; exact absurd hd (by decide)
    have hdx : d ≠ 'x' := fun hh => by subst hh; exact absurd hd (by decide)
    have hdr : d ≠ '\r' := fun hh => by subst hh; exact absurd hd (by decide)
    simp [cook, cookAux, hd, hd3, he1, he2, hdu, hdx, hdr]
  · intro d e1 e2 rest hd hd3 he1
    have hdu : d ≠ 'u' := fun hh => by subst hh; exact absurd hd (by decide)
    have hdx : d ≠ 'x' := fun hh => by subst hh; exact absurd hd (by decide)
    have hdr : d ≠ '\r' := fun hh => by subst hh; exact absurd hd (by decide)
    simp [cook, cookAux, hd, hd3, he1, hdu, hdx, hdr]
  · intro d e1 e2 rest hd he1
    have hdu : d ≠ 'u' := fun hh => by subst hh; exact absurd hd (by decide)
    have hdx : d ≠ 'x' := fun hh => by subst hh; exact absurd hd (by decide)
    have hdr : d ≠ '\r' := fun hh => by subst hh; exact absurd hd (by decide)
    by_cases hd3 : d ≤ '3' <;>
      simp [cook, cookAux, hd, hd3, he1, hdu, hdx, hdr]
  · intro rest
    refine ⟨?_, ?_, ?_, ?_⟩ <;>
      (cases rest with
       | nil => rfl
       | cons e1 rest3 =>
         cases rest3 with
         | nil => rfl
         | cons e2 rest4 => rfl)
  · intro r rest hr
    simp [cook, cookAux, hr]
  · intro rest
    refine ⟨?_, ?_, ?_, ?_, ?_, ?_⟩ <;>
      (cases rest with
       | nil => rfl
       | cons e1 rest3 =>
         cases rest3 with
         | nil => rfl
         | cons e2 rest4 => rfl)

/-- Witness for C4_theorem's hypothesis-bearing conjuncts at concrete
inputs. -/
theorem C4_witness :
    cook ('\\' :: 'q' :: S "z") = 'q' :: cook (S "z")
    ∧ cook ('\\' :: 'x' :: '4' :: 'A' :: S "z") = Char.ofNat 74 :: cook (S "z")
    ∧ cook ('\\' :: 'u' :: '1' :: '2' :: '3' :: '4' :: S "z")
        = Char.ofNat 4660 :: cook (S "z")
    ∧ cook ('\\' :: '1' :: '2' :: '3' :: S "z") = Char.ofNat 83 :: cook (S "z")
    ∧ cook ('\\' :: '4' :: '2' :: 'z' :: []) = Char.ofNat 34 :: cook ('z' :: [])
    ∧ cook ('\\' :: '7' :: 'z' :: 'w' :: []) = Char.ofNat 7 :: cook ('z' :: 'w' :: [])
    ∧ cook ('\\' :: '\r' :: 'z' :: []) = cook ('z' :: [])
    ∧ (trimCommonWhitespaceFromLines
          (TemplateStrings.mk [S "\n  a"] [S "\n  a"] true true) {}).cooked
        = (trimCommonWhitespaceFromLines
            (TemplateStrings.mk [S "\n  a"] [S "\n  a"] true true) {}).raw.map cook :=
  ⟨C4_theorem.1 'q' (S "z") (by decide) (by decide) (by decide) (by decide)
      (by decide) (by decide) (by decide) (by decide) (by decide) (by decide),
   C4_theorem.2.1 '4' 'A' (S "z") (by decide) (by decide),
   C4_theorem.2.2.1 '1' '2' '3' '4' (S "z") (by decide) (by decide) (by decide) (by decide),
   C4_theorem.2.2.2.1 '1' '2' '3' (S "z") (by decide) (by decide) (by decide) (by decide),
   C4_theorem.2.2.2.2.1 '4' '2' 'z' [] (by decide) (by decide) (by decide),
   C4_theorem.2.2.2.2.2.1 '7' 'z' 'w' [] (by decide) (by decide),
   C4_theorem.2.2.2.2.2.2.2.1 'z' [] (by decide),
   C4_theorem.2.2.2.2.2.2.2.2.2.1 _ _ (Or.inl (by decide))⟩

/-- Cache hit on a stored success: no recomputation, state unchanged. -/
theorem staticStateFor_hit {T : Type} (cs : JsArray → Except JsErr T) (id : Nat)
    (a : JsArray) (st : TagState T) (v : T)
    (hf : a.frozen = true) (hfr : isFrozenRaw a = true)
    (hl : st.memo.lookup id = some (StaticState.pass v)) :
    staticStateFor cs id a st = (Except.ok v, st) := by
  unfold staticStateFor
  simp [hf, hfr, hl]

/-- Cache hit on a stored failure: a fresh `Error` carrying the stored
message is thrown, without recomputation. -/
theorem staticStateFor_hitFail {T : Type} (cs : JsArray → Except JsErr T) (id : Nat)
    (a : JsArray) (st : TagState T) (m : String)
    (hf : a.frozen = true) (hfr : isFrozenRaw a = true)
    (hl : st.memo.lookup id = some (StaticState.fail m)) :
    staticStateFor cs id a st = (Except.error { message := some m }, st) := by
  unfold staticStateFor
  simp [hf, hfr, hl]

/-- Cache miss on an eligible array with a succeeding helper: compute,
store, count. -/
theorem staticStateFor_miss_ok {T : Type} (cs : JsArray → Except JsErr T) (id : Nat)
    (a : JsArray) (st : TagState T) (v : T)
    (hf : a.frozen = true) (hfr : isFrozenRaw a = true)
    (hl : st.memo.lookup id = none) (hcs : cs a = Except.ok v) :
    staticStateFor cs id a st
      = (Except.ok v,
         { memo := (id, StaticState.pass v) :: st.memo, calls := st.calls + 1 }) := by
  unfold staticStateFor
  simp [hf, hfr, hl, hcs]

/-- Cache miss on an eligible array with a throwing helper: the original
error propagates and the failure is stored. -/
theorem staticStateFor_miss_err {T : Type} (cs : JsArray → Except JsErr T) (id : Nat)
    (a : JsArray) (st : TagState T) (e : JsErr)
    (hf : a.frozen = true) (hfr : isFrozenRaw a = true)
    (hl : st.memo.lookup id = none) (hcs : cs a = Except.error e) :
    staticStateFor cs id a st
      = (Except.error e,
         { memo := (id, StaticState.fail (errMessageOrFailure e)) :: st.memo,
           calls := st.calls + 1 }) := by
  unfold staticStateFor
  simp [hf, hfr, hl, hcs]

/-- A cache-ineligible (unfrozen) array bypasses the cache: compute every
time, store nothing. -/
theorem staticStateFor_nomemo_ok {T : Type} (cs : JsArray → Except JsErr T) (id : Nat)
    (a : JsArray) (st : TagState T) (v : T)
    (hf : a.frozen = false) (hcs : cs a = Except.ok v) :
    staticStateFor cs id a st
      = (Except.ok v, { memo := st.memo, calls := st.calls + 1 }) := by
  unfold staticStateFor
  simp [hf, hcs]

/-- An invoke-shaped call on an array argument reduces to validation
followed by the static-state lookup and the combiner. -/
theorem tagCall_arr {O T R D : Type} (cs : JsArray → Except JsErr T)
    (cr : O → T → JsArray → List D → R) (o : O) (id : Nat) (a : JsArray)
    (ds : List D) (st : TagState T)
    (hv : requireValidTagInputs (CallArg.arr id a : CallArg O) ds.length
            = Except.ok (id, a)) :
    tagCall cs cr o (CallArg.arr id a) ds st
      = match staticStateFor cs id a st with
        | (Except.ok t, st2) => (TagOutcome.value (cr o t a ds), st2)
        | (Except.error e, st2) => (TagOutcome.thrown e, st2) := by
  unfold tagCall
  cases ds with
  | nil => simp only [hv]
  | cons d ds2 => simp only [hv]

/-- Repeated calls that hit a stored success neither recompute nor change
state. -/
theorem runCalls_cached {O T R D : Type} (cs : JsArray → Except JsErr T)
    (cr : O → T → JsArray → List D → R) (o : O) (id : Nat) (a : JsArray)
    (ds : List D) (st : TagState T) (v : T) (n : Nat)
    (hf : a.frozen = true) (hfr : isFrozenRaw a = true)
    (hl : st.memo.lookup id = some (StaticState.pass v))
    (hv : requireValidTagInputs (CallArg.arr id a : CallArg O) ds.length = Except.ok (id, a)) :
    runCalls cs cr o (List.replicate n (CallArg.arr id a, ds)) st
      = (List.replicate n (TagOutcome.value (cr o v a ds)), st) := by
  induction n with
  | zero => rfl
  | succ m ih =>
    rw [List.replicate_succ]
    unfold runCalls
    rw [tagCall_arr cs cr o id a ds st hv,
      staticStateFor_hit cs id a st v hf hfr hl]
    simp [ih, List.replicate_succ]

/-- Repeated calls that hit a stored failure re-throw a fresh error with
the stored message, neither recomputing nor changing state. -/
theorem runCalls_cachedFail {O T R D : Type} (cs : JsArray → Except JsErr T)
    (cr : O → T → JsArray → List D → R) (o : O) (id : Nat) (a : JsArray)
    (ds : List D) (st : TagState T) (m : String) (n : Nat)
    (hf : a.frozen = true) (hfr : isFrozenRaw a = true)
    (hl : st.memo.lookup id = some (StaticState.fail m))
    (hv : requireValidTagInputs (CallArg.arr id a : CallArg O) ds.length = Except.ok (id, a)) :
    runCalls cs cr o (List.replicate n (CallArg.arr id a, ds)) st
      = (List.replicate n (TagOutcome.thrown { message := some m }), st) := by
  induction n with
  | zero => rfl
  | succ k ih =>
    rw [List.replicate_succ]
    unfold runCalls
    rw [tagCall_arr cs cr o id a ds st hv,
      staticStateFor_hitFail cs id a st m hf hfr hl]
    simp [ih, List.replicate_succ]

/-- Claim C2 as stated is false on the code: a chunk array that is later
mutated in place is necessarily not frozen, so `canMemoize` is false, the
`WeakMap` is bypassed, and `computeStaticHelper` runs on *every* call.  In
the test suite's own 'mutation of chunks array' scenario (an unfrozen
`['foo','bar']` with matching `raw`, mutated to three chunks between two
calls with the same identity), the helper's invocation counter reaches 2
after 2 calls, not 1; each call's result does reflect the content at call
time. -/
theorem C2_counterexample :
    runCalls (fun a => Except.ok a.elems.length)
        (fun (_ : Unit) t (_ : JsArray) (_ : List Nat) => t) ()
        [(CallArg.arr 7 (JsArray.mk [JsVal.str (S "foo"), JsVal.str (S "bar")]
            (some [JsVal.str (S "foo"), JsVal.str (S "bar")]) false false), [0]),
         (CallArg.arr 7 (JsArray.mk
            [JsVal.str (S "foo"), JsVal.str (S "bar"), JsVal.str (S "baz")]
            (some [JsVal.str (S "foo"), JsVal.str (S "bar"), JsVal.str (S "baz")])
            false false), [0, 1])]
        (TagState.mk [] 0)
      = ([TagOutcome.value 2, TagOutcome.value 3], TagState.mk [] 2)
    ∧ (2 : Nat) ≠ 1 := by
  refine ⟨by decide, by decide⟩

/-- Claim C2, amended: for a fixed chunk-sequence identity that is
cache-eligible (frozen with frozen raw), computeStaticHelper is invoked
exactly once across N ≥ 1 invocations of the built tagged function; a chunk
sequence that can be mutated in place is necessarily unfrozen, hence
cache-ineligible, and computeStaticHelper runs on every such call; in both
regimes the combiner receives the live sequence on every call, so each
call's result reflects the sequence's content at call time. -/
theorem C2_theorem :
    (∀ {O T R D : Type} (cs : JsArray → Except JsErr T)
      (cr : O → T → JsArray → List D → R) (o : O) (id : Nat) (a : JsArray)
      (ds : List D) (st : TagState T) (v : T) (n : Nat),
      a.frozen = true → isFrozenRaw a = true →
      st.memo.lookup id = none →
      requireValidTagInputs (CallArg.arr id a : CallArg O) ds.length
        = Except.ok (id, a) →
      cs a = Except.ok v →
      runCalls cs cr o (List.replicate (n + 1) (CallArg.arr id a, ds)) st
        = (List.replicate (n + 1) (TagOutcome.value (cr o v a ds)),
           { memo := (id, StaticState.pass v) :: st.memo, calls := st.calls + 1 }))
    ∧ (∀ {O T R D : Type} (cs : JsArray → Except JsErr T)
      (cr : O → T → JsArray → List D → R) (o : O) (id : Nat) (a1 a2 : JsArray)
      (ds1 ds2 : List D) (st : TagState T) (v1 v2 : T),
      a1.frozen = false → a2.frozen = false →
      requireValidTagInputs (CallArg.arr id a1 : CallArg O) ds1.length
        = Except.ok (id, a1) →
      requireValidTagInputs (CallArg.arr id a2 : CallArg O) ds2.length
        = Except.ok (id, a2) →
      cs a1 = Except.ok v1 → cs a2 = Except.ok v2 →
      runCalls cs cr o [(CallArg.arr id a1, ds1), (CallArg.arr id a2, ds2)] st
        = ([TagOutcome.value (cr o v1 a1 ds1), TagOutcome.value (cr o v2 a2 ds2)],
           { memo := st.memo, calls := st.calls + 2 })) := by
  constructor
  · intro O T R D cs cr o id a ds st v n hf hfr hl hv hcs
    rw [List.replicate_succ]
    unfold runCalls
    rw [tagCall_arr cs cr o id a ds st hv,
      staticStateFor_miss_ok cs id a st v hf hfr hl hcs]
    dsimp only
    rw [runCalls_cached cs cr o id a ds _ v n hf hfr (by simp [List.lookup]) hv]
    simp [List.replicate_succ]
  · intro O T R D cs cr o id a1 a2 ds1 ds2 st v1 v2 hf1 hf2 hv1 hv2 hcs1 hcs2
    unfold runCalls
    rw [tagCall_arr cs cr o id a1 ds1 st hv1,
      staticStateFor_nomemo_ok cs id a1 st v1 hf1 hcs1]
    dsimp only
    unfold runCalls
    rw [tagCall_arr cs cr o id a2 ds2 _ hv2,
      staticStateFor_nomemo_ok cs id a2 _ v2 hf2 hcs2]
    dsimp only
    rfl

/-- Witness for C2_theorem at concrete inputs: a frozen singleton-chunk
identity called three times computes once; an unfrozen identity mutated
between two calls computes twice, each result reflecting call-time
content. -/
theorem C2_witness :
    runCalls (fun a => Except.ok a.elems.length)
        (fun (_ : Unit) t (_ : JsArray) (_ : List Nat) => t) ()
        (List.replicate 3 (CallArg.arr 5 (JsArray.mk [JsVal.str (S "x")]
            (some [JsVal.str (S "x")]) true true), []))
        (TagState.mk [] 0)
      = (List.replicate 3 (TagOutcome.value 1),
         TagState.mk [(5, StaticState.pass 1)] 1)
    ∧ runCalls (fun a => Except.ok a.elems.length)
        (fun (_ : Unit) t (_ : JsArray) (_ : List Nat) => t) ()
        [(CallArg.arr 7 (JsArray.mk [JsVal.str (S "x")]
            (some [JsVal.str (S "x")]) false false), []),
         (CallArg.arr 7 (JsArray.mk [JsVal.str (S "x"), JsVal.str (S "y")]
            (some [JsVal.str (S "x"), JsVal.str (S "y")]) false false), [0])]
        (TagState.mk [] 0)
      = ([TagOutcome.value 1, TagOutcome.value 2], TagState.mk [] 2) :=
  ⟨C2_theorem.1 (fun a => Except.ok a.elems.length)
      (fun (_ : Unit) t (_ : JsArray) (_ : List Nat) => t) () 5
      (JsArray.mk [JsVal.str (S "x")] (some [JsVal.str (S "x")]) true true)
      [] (TagState.mk [] 0) 1 2 rfl rfl rfl rfl rfl,
   C2_theorem.2 (fun a => Except.ok a.elems.length)
      (fun (_ : Unit) t (_ : JsArray) (_ : List Nat) => t) () 7
      (JsArray.mk [JsVal.str (S "x")] (some [JsVal.str (S "x")]) false false)
      (JsArray.mk [JsVal.str (S "x"), JsVal.str (S "y")]
        (some [JsVal.str (S "x"), JsVal.str (S "y")]) false false)
      [] [0] (TagState.mk [] 0) 1 2 rfl rfl rfl rfl rfl rfl⟩

/-- Claim C3 as stated is false on the code: a cached failure is re-thrown
as `new Error(exc.message || 'Failure')`, so when the original thrown error
has an empty (falsy) message — e.g. `new Error()` — the stored message is
the default `'Failure'`, and later callers see a different message than the
first caller, not the failure verbatim. -/
theorem C3_counterexample :
    runCalls (fun _ => (Except.error { message := some "" } : Except JsErr Nat))
        (fun (_ : Unit) t (_ : JsArray) (_ : List Nat) => t) ()
        (List.replicate 2 (CallArg.arr 3 (JsArray.mk [JsVal.str (S "x")]
            (some [JsVal.str (S "x")]) true true), []))
        (TagState.mk [] 0)
      = ([TagOutcome.thrown { message := some "" },
          TagOutcome.thrown { message := some "Failure" }],
         TagState.mk [(3, StaticState.fail "Failure")] 1)
    ∧ (JsErr.mk (some "") ≠ JsErr.mk (some "Failure")) := by
  refine ⟨by decide, by decide⟩

/-- Claim C3, amended: if computeStaticHelper throws on the first invocation
for a cache-eligible chunk-sequence identity, every subsequent invocation
with that identity throws again without re-invoking computeStaticHelper
(the counter stays at one); the first call re-throws the original error,
and subsequent calls throw a fresh error whose message is the original's
message when that message is a non-empty string, and the default 'Failure'
otherwise. -/
theorem C3_theorem :
    (∀ {O T R D : Type} (cs : JsArray → Except JsErr T)
      (cr : O → T → JsArray → List D → R) (o : O) (id : Nat) (a : JsArray)
      (ds : List D) (st : TagState T) (e : JsErr) (n : Nat),
      a.frozen = true → isFrozenRaw a = true →
      st.memo.lookup id = none →
      requireValidTagInputs (CallArg.arr id a : CallArg O) ds.length
        = Except.ok (id, a) →
      cs a = Except.error e →
      runCalls cs cr o (List.replicate (n + 1) (CallArg.arr id a, ds)) st
        = (TagOutcome.thrown e
            :: List.replicate n
                (TagOutcome.thrown { message := some (errMessageOrFailure e) }),
           { memo := (id, StaticState.fail (errMessageOrFailure e)) :: st.memo,
             calls := st.calls + 1 }))
    ∧ (∀ m : String, m ≠ "" → errMessageOrFailure { message := some m } = m) := by
  constructor
  · intro O T R D cs cr o id a ds st e n hf hfr hl hv hcs
    rw [List.replicate_succ]
    unfold runCalls
    rw [tagCall_arr cs cr o id a ds st hv,
      staticStateFor_miss_err cs id a st e hf hfr hl hcs]
    dsimp only
    rw [runCalls_cachedFail cs cr o id a ds _ (errMessageOrFailure e) n hf hfr
      (by simp [List.lookup]) hv]
  · intro m hm
    simp [errMessageOrFailure, hm]

/-- Witness for C3_theorem at a concrete input: a helper that always throws
an error with message 'boom' yields the original error once, then cached
re-throws with the same message, with the invocation counter staying at
one. -/
theorem C3_witness :
    runCalls (fun _ => (Except.error { message := some "boom" } : Except JsErr Nat))
        (fun (_ : Unit) t (_ : JsArray) (_ : List Nat) => t) ()
        (List.replicate 3 (CallArg.arr 3 (JsArray.mk [JsVal.str (S "x")]
            (some [JsVal.str (S "x")]) true true), []))
        (TagState.mk [] 0)
      = (TagOutcome.thrown { message := some "boom" }
          :: List.replicate 2
              (TagOutcome.thrown { message := some (errMessageOrFailure
                { message := some "boom" }) }),
         TagState.mk [(3, StaticState.fail (errMessageOrFailure
            { message := some "boom" }))] 1)
    ∧ errMessageOrFailure { message := some "boom" } = "boom" :=
  ⟨C3_theorem.1 (fun _ => (Except.error { message := some "boom" } : Except JsErr Nat))
      (fun (_ : Unit) t (_ : JsArray) (_ : List Nat) => t) () 3
      (JsArray.mk [JsVal.str (S "x")] (some [JsVal.str (S "x")]) true true)
      [] (TagState.mk [] 0) { message := some "boom" } 2 rfl rfl rfl rfl rfl,
   C3_theorem.2 "boom" (by decide)⟩

/-- An invoke-shaped call on an array argument that fails validation
throws that validation error, touching nothing. -/
theorem tagCall_arr_err {O T R D : Type} (cs : JsArray → Except JsErr T)
    (cr : O → T → JsArray → List D → R) (o : O) (id : Nat) (a : JsArray)
    (ds : List D) (st : TagState T) (e : JsErr)
    (hv : requireValidTagInputs (CallArg.arr id a : CallArg O) ds.length
            = Except.error e) :
    tagCall cs cr o (CallArg.arr id a) ds st = (TagOutcome.thrown e, st) := by
  unfold tagCall
  cases ds with
  | nil => simp only [hv]
  | cons d ds2 => simp only [hv]

/-- Claim C6: a call that reaches the invoke path (any call whose first
argument is an array, and any call with at least one dynamic value) is
validated eagerly — the outcome and the cache state are fixed before and
independently of the user-supplied helpers, which is why both helpers are
universally quantified here and absent from every conclusion.  Each listed
malformation throws: a non-array first argument (a `TypeError` from reading
`raw`/`raw.length` when the property is missing, `Error('Invalid static
strings')` otherwise), an array missing `raw`, length mismatch or a
non-string element, and a dynamic-value count different from the chunk
count minus one.  (A single non-array argument with no dynamic values is a
configure call, which the claim's opening 'invoked with a chunk sequence'
excludes.) -/
theorem C6_theorem :
    (∀ {O T R D : Type} (cs : JsArray → Except JsErr T)
      (cr : O → T → JsArray → List D → R) (o o' : O) (d : D) (ds : List D)
      (st : TagState T),
      tagCall cs cr o (CallArg.nonArray o' none) (d :: ds) st
        = (TagOutcome.thrown
            { message := some "TypeError: cannot read property of undefined" }, st))
    ∧ (∀ {O T R D : Type} (cs : JsArray → Except JsErr T)
      (cr : O → T → JsArray → List D → R) (o o' : O) (rs : List JsVal) (d : D)
      (ds : List D) (st : TagState T),
      tagCall cs cr o (CallArg.nonArray o' (some rs)) (d :: ds) st
        = (TagOutcome.thrown { message := some "Invalid static strings" }, st))
    ∧ (∀ {O T R D : Type} (cs : JsArray → Except JsErr T)
      (cr : O → T → JsArray → List D → R) (o : O) (id : Nat)
      (elems : List JsVal) (f rf : Bool) (ds : List D) (st : TagState T),
      tagCall cs cr o (CallArg.arr id (JsArray.mk elems none f rf)) ds st
        = (TagOutcome.thrown
            { message := some "TypeError: cannot read property of undefined" }, st))
    ∧ (∀ {O T R D : Type} (cs : JsArray → Except JsErr T)
      (cr : O → T → JsArray → List D → R) (o : O) (id : Nat)
      (elems raws : List JsVal) (f rf : Bool) (ds : List D) (st : TagState T),
      (elems.length = raws.length && isStringArrayVals elems
        && isStringArrayVals raws) = false →
      tagCall cs cr o (CallArg.arr id (JsArray.mk elems (some raws) f rf)) ds st
        = (TagOutcome.thrown { message := some "Invalid static strings" }, st))
    ∧ (∀ {O T R D : Type} (cs : JsArray → Except JsErr T)
      (cr : O → T → JsArray → List D → R) (o : O) (id : Nat)
      (elems raws : List JsVal) (f rf : Bool) (ds : List D) (st : TagState T),
      (elems.length = raws.length && isStringArrayVals elems
        && isStringArrayVals raws) = true →
      ds.length + 1 ≠ elems.length →
      tagCall cs cr o (CallArg.arr id (JsArray.mk elems (some raws) f rf)) ds st
        = (TagOutcome.thrown
            { message := some ("Too many or too few dynamic values: "
                ++ toString elems.length ++ " != " ++ toString ds.length) }, st)) := by
  refine ⟨?_, ?_, ?_, ?_, ?_⟩
  · intro O T R D cs cr o o' d ds st
    unfold tagCall requireValidTagInputs
    rfl
  · intro O T R D cs cr o o' rs d ds st
    unfold tagCall requireValidTagInputs
    rfl
  · intro O T R D cs cr o id elems f rf ds st
    exact tagCall_arr_err cs cr o id _ ds st _ rfl
  · intro O T R D cs cr o id elems raws f rf ds st h
    refine tagCall_arr_err cs cr o id _ ds st _ ?_
    unfold requireValidTagInputs
    simp [h]
  · intro O T R D cs cr o id elems raws f rf ds st h hn
    refine tagCall_arr_err cs cr o id _ ds st _ ?_
    unfold requireValidTagInputs
    simp [h, hn]

/-- Witness for C6_theorem's hypothesis-bearing conjuncts at concrete
inputs: a 2-chunk array with a 1-chunk raw, and a valid 1-chunk array
called with one dynamic value too many. -/
theorem C6_witness :
    tagCall (fun a => (Except.ok a.elems.length : Except JsErr Nat))
        (fun (_ : Unit) t (_ : JsArray) (_ : List Nat) => t) ()
        (CallArg.arr 1 (JsArray.mk [JsVal.str (S "a"), JsVal.str (S "b")]
          (some [JsVal.str (S "a")]) true true)) [0] (TagState.mk [] 0)
      = (TagOutcome.thrown { message := some "Invalid static strings" },
         TagState.mk [] 0)
    ∧ tagCall (fun a => (Except.ok a.elems.length : Except JsErr Nat))
        (fun (_ : Unit) t (_ : JsArray) (_ : List Nat) => t) ()
        (CallArg.arr 1 (JsArray.mk [JsVal.str (S "a")]
          (some [JsVal.str (S "a")]) true true)) [0] (TagState.mk [] 0)
      = (TagOutcome.thrown
          { message := some ("Too many or too few dynamic values: "
              ++ toString (1 : Nat) ++ " != " ++ toString (1 : Nat)) },
         TagState.mk [] 0) :=
  ⟨C6_theorem.2.2.2.1 (fun a => (Except.ok a.elems.length : Except JsErr Nat))
      (fun (_ : Unit) t (_ : JsArray) (_ : List Nat) => t) () 1
      [JsVal.str (S "a"), JsVal.str (S "b")] [JsVal.str (S "a")] true true
      [0] (TagState.mk [] 0) (by decide),
   C6_theorem.2.2.2.2 (fun a => (Except.ok a.elems.length : Except JsErr Nat))
      (fun (_ : Unit) t (_ : JsArray) (_ : List Nat) => t) () 1
      [JsVal.str (S "a")] [JsVal.str (S "a")] true true
      [0] (TagState.mk [] 0) (by decide) (by decide)⟩

/-- Claim C8: a call with exactly one non-array argument returns a new tag
function bound to that argument as its configuration, leaving the shared
cache state untouched (so the original function and every other bound
function keep using the very same cache); and an invocation through a
function bound to configuration A hands exactly A to the combiner — the
conclusion mentions no other configuration, so no binding of any B can leak
into calls through A's bound function. -/
theorem C8_theorem :
    (∀ {O T R D : Type} (cs : JsArray → Except JsErr T)
      (cr : O → T → JsArray → List D → R) (o o' : O)
      (rawp : Option (List JsVal)) (st : TagState T),
      tagCall cs cr o (CallArg.nonArray o' rawp) ([] : List D) st
        = (TagOutcome.configured o', st))
    ∧ (∀ {O T R D : Type} (cs : JsArray → Except JsErr T)
      (cr : O → T → JsArray → List D → R) (A : O) (id : Nat) (a : JsArray)
      (ds : List D) (st st2 : TagState T) (t : T),
      requireValidTagInputs (CallArg.arr id a : CallArg O) ds.length
        = Except.ok (id, a) →
      staticStateFor cs id a st = (Except.ok t, st2) →
      tagCall cs cr A (CallArg.arr id a) ds st
        = (TagOutcome.value (cr A t a ds), st2)) := by
  constructor
  · intro O T R D cs cr o o' rawp st
    rfl
  · intro O T R D cs cr A id a ds st st2 t hv hss
    rw [tagCall_arr cs cr A id a ds st hv, hss]

/-- Witness for C8_theorem's second conjunct at a concrete input. -/
theorem C8_witness :
    tagCall (fun a => (Except.ok a.elems.length : Except JsErr Nat))
        (fun (n : Nat) t (_ : JsArray) (_ : List Nat) => n + t) 10
        (CallArg.arr 4 (JsArray.mk [JsVal.str (S "a")]
          (some [JsVal.str (S "a")]) true true)) [] (TagState.mk [] 0)
      = (TagOutcome.value 11,
         TagState.mk [(4, StaticState.pass 1)] 1) :=
  C8_theorem.2 (fun a => (Except.ok a.elems.length : Except JsErr Nat))
    (fun (n : Nat) t (_ : JsArray) (_ : List Nat) => n + t) 10 4
    (JsArray.mk [JsVal.str (S "a")] (some [JsVal.str (S "a")]) true true)
    [] (TagState.mk [] 0) (TagState.mk [(4, StaticState.pass 1)] 1) 1
    rfl rfl

/-- A conditional whose branches both succeed with a boolean succeeds with
the conditional of the booleans. -/
theorem ite_ok (c : Prop) [inst : Decidable c] (x y : Bool) :
    (if c then (Except.ok x : Except JsErr Bool) else Except.ok y)
      = Except.ok (if c then x else y) := by
  by_cases h : c <;> simp [h]

/-- The quick detector always returns a boolean: every property read it
performs is guarded so the modelled `TypeError` branches are unreachable. -/
theorem calledAsTemplateTagQuick_isOk (v : JsValue) (n : Nat) :
    ∃ b : Bool, calledAsTemplateTagQuick v n = Except.ok b := by
  cases v with
  | arrv elems rawp f =>
    cases f with
    | false => exact ⟨false, rfl⟩
    | true =>
      unfold calledAsTemplateTagQuick
      simp only [truthy, isFrozenJs, isArrayJs, jsGetRaw, jsGetLength,
        Bool.and_self, Bool.and_true, Bool.true_and, if_pos rfl]
      cases rawp with
      | none => exact ⟨false, by simp [truthy]⟩
      | some rv =>
        cases rv with
        | undef => exact ⟨false, by simp [truthy]⟩
        | null => exact ⟨false, by simp [truthy]⟩
        | boolv b2 =>
          simp only [Option.getD_some, if_true]
          rw [ite_ok]
          exact ⟨_, rfl⟩
        | numv m2 =>
          simp only [Option.getD_some, if_true]
          rw [ite_ok]
          exact ⟨_, rfl⟩
        | strv s2 =>
          simp only [Option.getD_some, if_true]
          rw [ite_ok]
          exact ⟨_, rfl⟩
        | arrv e2 r2 f2 =>
          simp only [Option.getD_some, if_true]
          rw [ite_ok]
          exact ⟨_, rfl⟩
        | objv r2 f2 =>
          simp only [Option.getD_some, if_true]
          rw [ite_ok]
          exact ⟨_, rfl⟩
  | undef => exact ⟨false, rfl⟩
  | null => exact ⟨false, rfl⟩
  | boolv b => cases b <;> exact ⟨false, rfl⟩
  | numv m =>
    unfold calledAsTemplateTagQuick
    simp [isArrayJs]
  | strv str =>
    unfold calledAsTemplateTagQuick
    simp [isArrayJs]
  | objv rawp f =>
    unfold calledAsTemplateTagQuick
    simp [isArrayJs]

/-- Claim C10: for every value of the first argument (null, undefined,
numbers, strings, booleans, non-array objects, arrays with or without a
`raw` property, frozen or not) and every argument count, both
calledAsTemplateTagQuick and calledAsTemplateTag return a boolean and never
throw: every property access that could raise a `TypeError` in the model
sits behind the truthiness and shape guards. -/
theorem C10_theorem (v : JsValue) (n : Nat) :
    (∃ b : Bool, calledAsTemplateTagQuick v n = Except.ok b)
    ∧ (∃ b : Bool, calledAsTemplateTag v n = Except.ok b) := by
  refine ⟨calledAsTemplateTagQuick_isOk v n, ?_⟩
  obtain ⟨q, hq⟩ := calledAsTemplateTagQuick_isOk v n
  unfold calledAsTemplateTag
  rw [hq]
  cases q with
  | false => exact ⟨false, rfl⟩
  | true =>
    cases v with
    | arrv elems rawp f => exact ⟨_, rfl⟩
    | objv rawp f => exact ⟨_, rfl⟩
    | undef =>
      exact absurd hq (by unfold calledAsTemplateTagQuick; simp [truthy])
    | null =>
      exact absurd hq (by unfold calledAsTemplateTagQuick; simp [truthy])
    | boolv b =>
      exact absurd hq (by unfold calledAsTemplateTagQuick; cases b <;> simp [truthy, isArrayJs])
    | numv m =>
      exact absurd hq (by unfold calledAsTemplateTagQuick; simp [isArrayJs])
    | strv str =>
      exact absurd hq (by unfold calledAsTemplateTagQuick; simp [isArrayJs])
